import Mathlib

/- Verification of the PitchDetector.TS pitch-estimation algorithms.

   Modelling conventions.  JavaScript double arithmetic is modelled by exact
   rational arithmetic over ℚ.  Division by zero yields the junk value 0 in
   ℚ; at the one place where the source can divide zero by zero with no
   guard (the base-class parabolic interpolation, src/src/pitch-detector.ts),
   the NaN outcome is modelled explicitly with Option ℚ (none = NaN), and
   NaN values flowing from it are propagated through Option.  Sample buffers
   are List ℚ and reads use List.getD (every read the algorithms perform is
   inside the window they scan).  While loops are translated to
   tail-recursive functions whose first argument is the remaining iteration
   count (at every call site it equals the distance from the loop counter to
   the loop bound, so the translation runs the loop body exactly as the
   source does). -/

/-- Sum f 0 + f 1 + ... + f (n - 1), mirroring an accumulating for loop. -/
def sumRange (f : ℕ → ℚ) : ℕ → ℚ
  | 0 => 0
  | n + 1 => sumRange f n + f n

/-- Tail-recursive translation of the shared descend while loop of
Amdf.findAbsoluteThreshold (src/unnamed/part_004 lines 167-188) and
Asdf.findAbsoluteThreshold (src/src/sample-rate.ts lines 178-199); the Yin
loop of src/unnamed/part_003 lines 155-183 reduces to it through Yin.cmndAt
(lemma yinFindAbsoluteThreshold_eq_descend).  Starting at bestTau with value
holding the metric at bestTau - 1, keep incrementing bestTau while the metric
keeps strictly decreasing; on exit return bestTau - 1.  fuel is
maxTau - bestTau at every call site. -/
def descendLoop (f : ℕ → ℚ) (maxTau : ℕ) : ℕ → ℕ → ℚ → ℕ
  | 0, bestTau, _ => bestTau - 1
  | fuel + 1, bestTau, value =>
    if bestTau < maxTau then
      if f bestTau < value then descendLoop f maxTau fuel (bestTau + 1) (f bestTau)
      else bestTau - 1
    else bestTau - 1

/-- Tail-recursive translation of the scanning for loop of Amdf.findBestTau
(src/unnamed/part_004 lines 137-155) and Asdf.findBestTau
(src/src/sample-rate.ts lines 149-166); the Yin scan of part_003 lines
119-141 reduces to it through Yin.cmndAt.  Returns the first i in
[i, maxTau) with f i < threshold, none when no lag crosses.  fuel is
maxTau - i at every call site. -/
def scanLoop (f : ℕ → ℚ) (maxTau : ℕ) (threshold : ℚ) : ℕ → ℕ → Option ℕ
  | 0, _ => none
  | fuel + 1, i =>
    if i < maxTau then
      if f i < threshold then some i
      else scanLoop f maxTau threshold fuel (i + 1)
    else none

/-- Trace of the lags at which the descend while loop evaluates its metric:
each iteration with bestTau < maxTau evaluates f bestTau once. -/
def descendEvalLoop (f : ℕ → ℚ) (maxTau : ℕ) : ℕ → ℕ → ℚ → List ℕ
  | 0, _, _ => []
  | fuel + 1, bestTau, value =>
    if bestTau < maxTau then
      bestTau ::
        (if f bestTau < value then descendEvalLoop f maxTau fuel (bestTau + 1) (f bestTau)
         else [])
    else []

/-- Trace of the lags at which the scanning for loop (and the descend loop it
hands over to on a threshold crossing) evaluates its metric. -/
def scanEvalLoop (f : ℕ → ℚ) (maxTau : ℕ) (threshold : ℚ) : ℕ → ℕ → List ℕ
  | 0, _ => []
  | fuel + 1, i =>
    if i < maxTau then
      i ::
        (if f i < threshold then descendEvalLoop f maxTau (maxTau - (i + 1)) (i + 1) (f i)
         else scanEvalLoop f maxTau threshold fuel (i + 1))
    else []

namespace PitchDetector

/-- PitchDetector.applyParabolicInterpolation (src/src/pitch-detector.ts lines
43-59).  The source interpolates with numerator prevSample - 2 * sample +
nextSample over denominator 2 * (2 * sample - nextSample - prevSample) and has
no zero-denominator guard; the denominator is -2 times the numerator, so a
zero denominator forces a zero numerator and JavaScript produces 0/0 = NaN,
modelled as none. -/
def applyParabolicInterpolation (samples : List ℚ) (tau : ℕ) : Option ℚ :=
  if 1 ≤ tau ∧ tau + 1 < samples.length then
    let prevSample := samples.getD (tau - 1) 0
    let sample := samples.getD tau 0
    let nextSample := samples.getD (tau + 1) 0
    let d := 2 * (2 * sample - nextSample - prevSample)
    if d = 0 then none
    else some ((tau : ℚ) + (prevSample - 2 * sample + nextSample) / d)
  else some (tau : ℚ)

end PitchDetector

namespace Amdf

/-- Amdf.computeAmdf (src/unnamed/part_004 lines 198-208): sum of
|x[i] - x[i + tau]| over i in [1, length - tau), divided by (length - tau). -/
def computeAmdf (samples : List ℚ) (tau : ℕ) : ℚ :=
  sumRange (fun k => |samples.getD (k + 1) 0 - samples.getD (k + 1 + tau) 0|)
      (samples.length - tau - 1) /
    ((samples.length : ℚ) - (tau : ℚ))

/-- Amdf.findAbsoluteThreshold (src/unnamed/part_004 lines 167-188). -/
def findAbsoluteThreshold (samples : List ℚ) (minTau maxTau : ℕ) (value : ℚ) : ℕ :=
  descendLoop (computeAmdf samples) maxTau (maxTau - (minTau + 1)) (minTau + 1) value

/-- Scanning phase of Amdf.findBestTau (src/unnamed/part_004 lines 137-155):
the first lag in [minTau, maxTau) whose AMDF value is strictly below the
threshold, none when the loop completes without a crossing. -/
def firstCross (samples : List ℚ) (minTau maxTau : ℕ) (threshold : ℚ) : Option ℕ :=
  scanLoop (computeAmdf samples) maxTau threshold (maxTau - minTau) minTau

/-- Amdf.findBestTau (src/unnamed/part_004 lines 137-155): on the first
threshold crossing, descend to the local minimum and apply the inherited
parabolic interpolation to the resulting lag (over the raw samples, as the
source does); 0 when no lag crosses.  none models a NaN result of the
unguarded interpolation. -/
def findBestTau (samples : List ℚ) (minTau maxTau : ℕ) (threshold : ℚ) : Option ℚ :=
  match firstCross samples minTau maxTau threshold with
  | none => some 0
  | some tau0 =>
    PitchDetector.applyParabolicInterpolation samples
      (findAbsoluteThreshold samples tau0 maxTau (computeAmdf samples tau0))

/-- Amdf.detect (src/unnamed/part_004 lines 116-125).  minTau and maxTau are
floor(rate / maxFrequency) and ceil(rate / minFrequency); with the section 3
invariants (positive rate and frequencies) both are nonnegative, so ℕ via
Int.toNat is faithful.  A NaN bestTau fails the bestTau > 0 test, giving 0. -/
def detect (samples : List ℚ) (rate minFrequency maxFrequency threshold : ℚ) : ℚ :=
  let minTau := (⌊rate / maxFrequency⌋).toNat
  let maxTau := (⌈rate / minFrequency⌉).toNat
  match findBestTau samples minTau maxTau threshold with
  | none => 0
  | some bestTau => if 0 < bestTau then rate / bestTau else 0

/-- Lags at which Amdf.detect evaluates computeAmdf, in evaluation order. -/
def evalLags (samples : List ℚ) (rate minFrequency maxFrequency threshold : ℚ) : List ℕ :=
  let minTau := (⌊rate / maxFrequency⌋).toNat
  let maxTau := (⌈rate / minFrequency⌉).toNat
  scanEvalLoop (computeAmdf samples) maxTau threshold (maxTau - minTau) minTau

end Amdf

namespace Asdf

/-- Asdf.computeAsdf (src/src/sample-rate.ts lines 209-219): sum of
(x[i] - x[i + tau])^2 over i in [1, length - tau), divided by
(length - tau). -/
def computeAsdf (samples : List ℚ) (tau : ℕ) : ℚ :=
  sumRange (fun k => (samples.getD (k + 1) 0 - samples.getD (k + 1 + tau) 0) ^ 2)
      (samples.length - tau - 1) /
    ((samples.length : ℚ) - (tau : ℚ))

/-- Asdf.findAbsoluteThreshold (src/src/sample-rate.ts lines 178-199). -/
def findAbsoluteThreshold (samples : List ℚ) (minTau maxTau : ℕ) (value : ℚ) : ℕ :=
  descendLoop (computeAsdf samples) maxTau (maxTau - (minTau + 1)) (minTau + 1) value

/-- Scanning phase of Asdf.findBestTau (src/src/sample-rate.ts lines 149-166). -/
def firstCross (samples : List ℚ) (minTau maxTau : ℕ) (threshold : ℚ) : Option ℕ :=
  scanLoop (computeAsdf samples) maxTau threshold (maxTau - minTau) minTau

/-- Asdf.findBestTau (src/src/sample-rate.ts lines 149-166): the descend
result on the first crossing, 0 when no lag crosses.  Unlike Amdf and Yin,
no parabolic interpolation is applied, so the result stays an integer lag. -/
def findBestTau (samples : List ℚ) (minTau maxTau : ℕ) (threshold : ℚ) : ℕ :=
  match firstCross samples minTau maxTau threshold with
  | none => 0
  | some tau0 => findAbsoluteThreshold samples tau0 maxTau (computeAsdf samples tau0)

/-- Asdf.detect (src/src/sample-rate.ts lines 128-137). -/
def detect (samples : List ℚ) (rate minFrequency maxFrequency threshold : ℚ) : ℚ :=
  let minTau := (⌊rate / maxFrequency⌋).toNat
  let maxTau := (⌈rate / minFrequency⌉).toNat
  let bestTau := findBestTau samples minTau maxTau threshold
  if 0 < bestTau then rate / (bestTau : ℚ) else 0

/-- Lags at which Asdf.detect evaluates computeAsdf, in evaluation order. -/
def evalLags (samples : List ℚ) (rate minFrequency maxFrequency threshold : ℚ) : List ℕ :=
  let minTau := (⌊rate / maxFrequency⌋).toNat
  let maxTau := (⌈rate / minFrequency⌉).toNat
  scanEvalLoop (computeAsdf samples) maxTau threshold (maxTau - minTau) minTau

end Asdf

namespace AsdfPrev

/-- Asdf.computeAsdf of the older snapshot (src/src/tau.ts lines 58-76): the
full ASDF array over lags [0, maxLag), each entry summing over i in
[0, length - lag). -/
def computeAsdf (samples : List ℚ) (maxLag : ℕ) : List ℚ :=
  (List.range maxLag).map (fun lag =>
    sumRange (fun i => (samples.getD i 0 - samples.getD (i + lag) 0) ^ 2)
        (samples.length - lag) /
      ((samples.length : ℚ) - (lag : ℚ)))

/-- Body of Asdf.findBestLag of the older snapshot (src/src/tau.ts lines
87-102): running argmin with strict improvement; value = none models the
initial Infinity, against which any rational compares smaller. -/
def findBestLagLoop (asdf : List ℚ) (maxLag : ℕ) : ℕ → ℕ → ℕ → Option ℚ → ℕ
  | 0, _, bestLag, _ => bestLag
  | fuel + 1, lag, bestLag, value =>
    if lag < maxLag then
      if match value with
         | none => true
         | some v => decide (asdf.getD lag 0 < v) then
        findBestLagLoop asdf maxLag fuel (lag + 1) lag (some (asdf.getD lag 0))
      else findBestLagLoop asdf maxLag fuel (lag + 1) bestLag value
    else bestLag

/-- Asdf.findBestLag of the older snapshot (src/src/tau.ts lines 87-102). -/
def findBestLag (asdf : List ℚ) (minLag maxLag : ℕ) : ℕ :=
  findBestLagLoop asdf maxLag (maxLag - minLag) minLag minLag none

/-- Asdf.detect of the older snapshot (src/src/tau.ts lines 112-121): both
bounds use Math.floor, the best lag is converted directly with no sentinel
and no interpolation. -/
def detect (samples : List ℚ) (rate minFrequency maxFrequency : ℚ) : ℚ :=
  let minLag := (⌊rate / maxFrequency⌋).toNat
  let maxLag := (⌊rate / minFrequency⌋).toNat
  let asdf := computeAsdf samples maxLag
  let bestLag := findBestLag asdf minLag maxLag
  rate / (bestLag : ℚ)

end AsdfPrev

namespace Yin

/-- Yin.computeDiff (src/unnamed/part_003 lines 240-252): sum of
(x[i] - x[i + tau])^2 over i in [1, length - tau), not normalized. -/
def computeDiff (samples : List ℚ) (tau : ℕ) : ℚ :=
  sumRange (fun k => (samples.getD (k + 1) 0 - samples.getD (k + 1 + tau) 0) ^ 2)
    (samples.length - tau - 1)

/-- Running sum diff(1) + ... + diff(tau) that the Yin loops accumulate in
their sum variable. -/
def cumDiff (samples : List ℚ) (tau : ℕ) : ℚ :=
  sumRange (fun k => computeDiff samples (k + 1)) tau

/-- Cumulative mean normalized difference diff(tau) * tau / cumDiff(tau),
the value the Yin loops assign to their cmnd variable at lag tau. -/
def cmndAt (samples : List ℚ) (tau : ℕ) : ℚ :=
  computeDiff samples tau * (tau : ℚ) / cumDiff samples tau

/-- Yin.applyParabolicInterpolation (src/unnamed/part_003 lines 197-230).
Takes the running diff, sum and cmnd values at tau, rebuilds the cmnd values
of the two neighbours from them, and interpolates with numerator
nextCmnd - prevCmnd; all three boundary cases (tau - 1 < 0,
bufferSize <= tau + 1, zero curvature) return tau unchanged. -/
def applyParabolicInterpolation (samples : List ℚ) (tau bufferSize : ℕ)
    (diff sum cmnd : ℚ) : ℚ :=
  if tau = 0 then (tau : ℚ)
  else if bufferSize ≤ tau + 1 then (tau : ℚ)
  else
    let prevDiff := computeDiff samples (tau - 1)
    let nextDiff := computeDiff samples (tau + 1)
    let prevSum := sum - diff
    let nextSum := sum + nextDiff
    let prevCmnd := prevDiff * ((tau - 1 : ℕ) : ℚ) / prevSum
    let nextCmnd := nextDiff * ((tau + 1 : ℕ) : ℚ) / nextSum
    let a := 2 * cmnd - nextCmnd - prevCmnd
    if a = 0 then (tau : ℚ)
    else (tau : ℚ) + (nextCmnd - prevCmnd) / (2 * a)

/-- Yin.findAbsoluteThreshold (src/unnamed/part_003 lines 155-183):
the descend while loop carrying the incrementally updated diff, sum and cmnd,
ending in the parabolic interpolation of bestTau - 1 with the last accepted
state.  fuel is bufferSize - bestTau at every call site. -/
def findAbsoluteThreshold (samples : List ℚ) (bufferSize : ℕ) :
    ℕ → ℕ → ℚ → ℚ → ℚ → ℚ
  | 0, bestTau, diff, sum, cmnd =>
    applyParabolicInterpolation samples (bestTau - 1) bufferSize diff sum cmnd
  | fuel + 1, bestTau, diff, sum, cmnd =>
    if bestTau < bufferSize then
      let absoluteDiff := computeDiff samples bestTau
      let absoluteSum := sum + absoluteDiff
      let absoluteCmnd := absoluteDiff * (bestTau : ℚ) / absoluteSum
      if absoluteCmnd < cmnd then
        findAbsoluteThreshold samples bufferSize fuel (bestTau + 1)
          absoluteDiff absoluteSum absoluteCmnd
      else applyParabolicInterpolation samples (bestTau - 1) bufferSize diff sum cmnd
    else applyParabolicInterpolation samples (bestTau - 1) bufferSize diff sum cmnd

/-- Scanning for loop of Yin.findBestTau (src/unnamed/part_003 lines
119-141), carrying the running sum.  fuel is bufferSize - i at every call
site. -/
def findBestTauLoop (samples : List ℚ) (bufferSize : ℕ) (threshold : ℚ) :
    ℕ → ℕ → ℚ → ℚ
  | 0, _, _ => 0
  | fuel + 1, i, sum =>
    if i < bufferSize then
      let diff := computeDiff samples i
      let sum1 := sum + diff
      let cmnd := diff * (i : ℚ) / sum1
      if cmnd < threshold then
        findAbsoluteThreshold samples bufferSize (bufferSize - (i + 1)) (i + 1)
          diff sum1 cmnd
      else findBestTauLoop samples bufferSize threshold fuel (i + 1) sum1
    else 0

/-- Yin.findBestTau (src/unnamed/part_003 lines 119-141). -/
def findBestTau (samples : List ℚ) (bufferSize : ℕ) (threshold : ℚ) : ℚ :=
  findBestTauLoop samples bufferSize threshold (bufferSize - 1) 1 0

/-- Yin.detect (src/unnamed/part_003 lines 100-108). -/
def detect (samples : List ℚ) (bufferSize : ℕ) (threshold rate : ℚ) : ℚ :=
  let bestTau := findBestTau samples bufferSize threshold
  if 0 < bestTau then rate / bestTau else 0

end Yin

namespace YinPrev

/-- Yin.computeDifference of the part_002 snapshot (lines 40-52): sum of
(x[i] - x[i + tau])^2 over i in [0, length - tau). -/
def computeDifference (samples : List ℚ) (tau : ℕ) : ℚ :=
  sumRange (fun i => (samples.getD i 0 - samples.getD (i + tau) 0) ^ 2)
    (samples.length - tau)

/-- Running sum difference(1) + ... + difference(tau) accumulated by
Yin.computeCmnd of the part_002 snapshot in its sum variable. -/
def cumDiff (samples : List ℚ) (tau : ℕ) : ℚ :=
  sumRange (fun k => computeDifference samples (k + 1)) tau

/-- Yin.computeCmnd of the part_002 snapshot (lines 61-77): entry 0 is 1 and
entry i (i >= 1) is the cumulative mean sum / i, where sum accumulates
computeDifference over lags 1..i. -/
def computeCmnd (samples : List ℚ) : List ℚ :=
  (List.range samples.length).map (fun i => if i = 0 then 1 else cumDiff samples i / (i : ℚ))

end YinPrev

namespace McLeod

/-- McLeod.computeNsdf (src/src/pitch-detectors/yin.ts related doc, lines
229-252): for each tau in [0, bufferSize), twice the windowed
autocorrelation divided by the windowed energy. -/
def computeNsdf (samples : List ℚ) (bufferSize : ℕ) : List ℚ :=
  (List.range bufferSize).map (fun tau =>
    2 * sumRange (fun j => samples.getD j 0 * samples.getD (j + tau) 0) (bufferSize - tau) /
      sumRange (fun j => samples.getD j 0 * samples.getD j 0 +
        samples.getD (j + tau) 0 * samples.getD (j + tau) 0) (bufferSize - tau))

/-- McLeod.findPeaks (lines 261-275): every i in [1, length - 1) whose NSDF
value exceeds the threshold and both neighbours. -/
def findPeaks (nsdf : List ℚ) (threshold : ℚ) : List ℕ :=
  (List.range nsdf.length).filter (fun i =>
    decide (1 ≤ i ∧ i + 1 < nsdf.length ∧ threshold < nsdf.getD i 0 ∧
      nsdf.getD (i - 1) 0 < nsdf.getD i 0 ∧ nsdf.getD (i + 1) 0 < nsdf.getD i 0))

/-- Peak-maximising loop of McLeod.detect (lines 295-305): keep the current
index unless a later peak has a strictly larger NSDF value. -/
def bestPeak (nsdf : List ℚ) : ℕ → List ℕ → ℕ
  | maxIndex, [] => maxIndex
  | maxIndex, p :: rest =>
    if nsdf.getD maxIndex 0 < nsdf.getD p 0 then bestPeak nsdf p rest
    else bestPeak nsdf maxIndex rest

/-- Integer lag chosen by McLeod.detect before interpolation: none when no
peak qualifies. -/
def bestTau (nsdf : List ℚ) (threshold : ℚ) : Option ℕ :=
  match findPeaks nsdf threshold with
  | [] => none
  | p :: rest => some (bestPeak nsdf p rest)

/-- McLeod.detect (lines 285-310): -1 when no peak qualifies, otherwise
rate divided by the parabolic interpolation (over the NSDF array) of the
best peak; none models a NaN interpolation result propagating into the
division. -/
def detect (samples : List ℚ) (bufferSize : ℕ) (threshold rate : ℚ) : Option ℚ :=
  let nsdf := computeNsdf samples bufferSize
  match findPeaks nsdf threshold with
  | [] => some (-1)
  | p :: rest =>
    (PitchDetector.applyParabolicInterpolation nsdf (bestPeak nsdf p rest)).map
      (fun betterTau => rate / betterTau)

end McLeod

/-- Configuration record of the Amdf detector (fields of AmdfOptions,
src/unnamed/part_004 lines 76-79, defaults threshold 0.1, minFrequency 50,
maxFrequency 1000). -/
structure AmdfOptions where
  minFrequency : ℚ
  maxFrequency : ℚ
  threshold : ℚ
deriving DecidableEq

/-- A Partial AmdfOptions argument: none models an absent (nil) field, which
isNil filters out. -/
structure AmdfPatch where
  minFrequency : Option ℚ
  maxFrequency : Option ℚ
  threshold : Option ℚ
deriving DecidableEq

/-- Amdf.configure (src/unnamed/part_004 lines 88-106): three sequential
if (!isNil(...)) assignments. -/
def Amdf.configure (o : AmdfOptions) (p : AmdfPatch) : AmdfOptions :=
  let o1 := match p.minFrequency with
    | none => o
    | some v => { o with minFrequency := v }
  let o2 := match p.maxFrequency with
    | none => o1
    | some v => { o1 with maxFrequency := v }
  match p.threshold with
  | none => o2
  | some v => { o2 with threshold := v }

/-- Configuration record of the Yin detector (fields of YinOptions with
bufferSize, defaults bufferSize 1024, threshold 0.1). -/
structure YinOptions where
  bufferSize : ℕ
  threshold : ℚ
deriving DecidableEq

/-- A Partial YinOptions argument: none models an absent (nil) field. -/
structure YinPatch where
  bufferSize : Option ℕ
  threshold : Option ℚ
deriving DecidableEq

/-- Yin.configure (src/unnamed/part_003 lines 77-90): two sequential
if (!isNil(...)) assignments. -/
def Yin.configure (o : YinOptions) (p : YinPatch) : YinOptions :=
  let o1 := match p.bufferSize with
    | none => o
    | some v => { o with bufferSize := v }
  match p.threshold with
  | none => o1
  | some v => { o1 with threshold := v }

/-- Characterisation of the lag selected by the descend phase triggered at
crossing lag tau0: the metric strictly decreases at every step from tau0 up
to r, and at r the loop stopped because the bound was reached or the metric
failed to strictly decrease — r is the first local minimum of the metric
after the threshold crossing (not the global minimum over the lag range). -/
def descendChar (f : ℕ → ℚ) (tau0 maxTau r : ℕ) : Prop :=
  tau0 ≤ r ∧ r < maxTau ∧ (∀ k, tau0 ≤ k → k < r → f (k + 1) < f k) ∧
    (r + 1 = maxTau ∨ ¬ f (r + 1) < f r)

/-- Value produced by Yin.findBestTau when the scan crosses the threshold at
lag tau0, written in terms of the per-lag functions computeDiff, cumDiff and
cmndAt: the descend result over cmndAt, interpolated with the running state
of that lag. -/
def Yin.searchResult (samples : List ℚ) (bufferSize tau0 : ℕ) : ℚ :=
  let r := descendLoop (Yin.cmndAt samples) bufferSize (bufferSize - (tau0 + 1)) (tau0 + 1)
    (Yin.cmndAt samples tau0)
  Yin.applyParabolicInterpolation samples r bufferSize (Yin.computeDiff samples r)
    (Yin.cumDiff samples r) (Yin.cmndAt samples r)

/-- Reference lag search over an arbitrary metric: first threshold crossing
via scanLoop, then descend; evaluates the metric function directly at each
lag (used to state what quantity the Yin loops compare). -/
def searchFirstCrossing (f : ℕ → ℚ) (minTau maxTau : ℕ) (threshold : ℚ) : Option ℕ :=
  scanLoop f maxTau threshold (maxTau - minTau) minTau

section GenericLoopLemmas

variable (f : ℕ → ℚ) (maxTau : ℕ)

/-- Starting the descend loop at tau0 + 1 with the metric value at tau0, the
returned lag satisfies descendChar: it is the first local minimum of f at or
after tau0 within [tau0, maxTau). -/
theorem descendLoop_spec :
    ∀ fuel tau0, tau0 + 1 ≤ maxTau → fuel = maxTau - (tau0 + 1) →
      descendChar f tau0 maxTau (descendLoop f maxTau fuel (tau0 + 1) (f tau0)) := by
  intro fuel
  induction fuel with
  | zero =>
    intro tau0 h1 hf
    have hj : tau0 + 1 = maxTau := by omega
    simp only [descendLoop, Nat.add_sub_cancel, descendChar]
    exact ⟨le_refl _, by omega, fun k hk1 hk2 => absurd hk2 (by omega), Or.inl hj⟩
  | succ fuel ih =>
    intro tau0 h1 hf
    have hj : tau0 + 1 < maxTau := by omega
    simp only [descendLoop, if_pos hj]
    by_cases hlt : f (tau0 + 1) < f tau0
    · rw [if_pos hlt]
      obtain ⟨ha, hb, hc, hd⟩ := ih (tau0 + 1) (by omega) (by omega)
      refine ⟨by omega, hb, ?_, hd⟩
      intro k hk1 hk2
      rcases Nat.eq_or_lt_of_le hk1 with hk | hk
      · rw [← hk]
        exact hlt
      · exact hc k hk hk2
    · rw [if_neg hlt]
      simp only [Nat.add_sub_cancel, descendChar]
      exact ⟨le_refl _, by omega, fun k hk1 hk2 => absurd hk2 (by omega), Or.inr hlt⟩

/-- Any crossing lag reported by the scan loop is at least the loop start. -/
theorem scanLoop_some_ge (t : ℚ) :
    ∀ fuel i tau0, scanLoop f maxTau t fuel i = some tau0 → i ≤ tau0 := by
  intro fuel
  induction fuel with
  | zero => intro i tau0 h; simp [scanLoop] at h
  | succ fuel ih =>
    intro i tau0 h
    simp only [scanLoop] at h
    by_cases hi : i < maxTau
    · rw [if_pos hi] at h
      by_cases hc : f i < t
      · rw [if_pos hc] at h
        have : i = tau0 := by simpa using h
        omega
      · rw [if_neg hc] at h
        have := ih (i + 1) tau0 h
        omega
    · rw [if_neg hi] at h
      exact absurd h (by simp)

/-- The scan loop returns some tau0 exactly when tau0 is the first lag in
[i, maxTau) whose metric value is strictly below the threshold (with the
fuel of the call sites, maxTau - i). -/
theorem scanLoop_eq_some_iff (t : ℚ) :
    ∀ fuel i tau0, fuel = maxTau - i →
      (scanLoop f maxTau t fuel i = some tau0 ↔
        i ≤ tau0 ∧ tau0 < maxTau ∧ f tau0 < t ∧
          ∀ k, i ≤ k → k < tau0 → ¬ f k < t) := by
  intro fuel
  induction fuel with
  | zero =>
    intro i tau0 hf
    simp only [scanLoop]
    constructor
    · intro h
      exact absurd h (by simp)
    · intro ⟨h1, h2, _, _⟩
      omega
  | succ fuel ih =>
    intro i tau0 hf
    have hi : i < maxTau := by omega
    simp only [scanLoop, if_pos hi]
    by_cases hc : f i < t
    · rw [if_pos hc]
      constructor
      · intro h
        have : i = tau0 := by simpa using h
        subst this
        exact ⟨le_refl _, hi, hc, fun k hk1 hk2 => absurd hk2 (by omega)⟩
      · intro ⟨h1, h2, h3, h4⟩
        have : i = tau0 := by
          by_contra hne
          exact h4 i (le_refl _) (by omega) hc
        rw [this]
    · rw [if_neg hc]
      rw [ih (i + 1) tau0 (by omega)]
      constructor
      · intro ⟨h1, h2, h3, h4⟩
        refine ⟨by omega, h2, h3, ?_⟩
        intro k hk1 hk2
        rcases Nat.eq_or_lt_of_le hk1 with hk | hk
        · rw [← hk]
          exact hc
        · exact h4 k hk hk2
      · intro ⟨h1, h2, h3, h4⟩
        have hne : i ≠ tau0 := by
          intro h
          rw [← h] at h3
          exact hc h3
        exact ⟨by omega, h2, h3, fun k hk1 hk2 => h4 k (by omega) hk2⟩

/-- The scan loop returns none exactly when no lag in [i, maxTau) has metric
value strictly below the threshold. -/
theorem scanLoop_eq_none_iff (t : ℚ) :
    ∀ fuel i, fuel = maxTau - i →
      (scanLoop f maxTau t fuel i = none ↔ ∀ k, i ≤ k → k < maxTau → ¬ f k < t) := by
  intro fuel
  induction fuel with
  | zero =>
    intro i hf
    simp only [scanLoop, true_iff]
    intro k hk1 hk2
    omega
  | succ fuel ih =>
    intro i hf
    have hi : i < maxTau := by omega
    simp only [scanLoop, if_pos hi]
    by_cases hc : f i < t
    · rw [if_pos hc]
      simp only [iff_false, reduceCtorEq, false_iff, not_forall]
      exact ⟨i, le_refl _, hi, not_not_intro hc⟩
    · rw [if_neg hc]
      rw [ih (i + 1) (by omega)]
      constructor
      · intro h k hk1 hk2
        rcases Nat.eq_or_lt_of_le hk1 with hk | hk
        · rw [← hk]
          exact hc
        · exact h k hk hk2
      · intro h k hk1 hk2
        exact h k (by omega) hk2

/-- Raising the threshold can only move the first crossing earlier: if the
scan crosses t1 at tau1 and t1 ≤ t2, it crosses t2 at some tau2 ≤ tau1. -/
theorem scanLoop_mono (t1 t2 : ℚ) (hT : t1 ≤ t2) :
    ∀ fuel i tau1, scanLoop f maxTau t1 fuel i = some tau1 →
      ∃ tau2, tau2 ≤ tau1 ∧ scanLoop f maxTau t2 fuel i = some tau2 := by
  intro fuel
  induction fuel with
  | zero => intro i tau1 h; exact absurd h (by simp [scanLoop])
  | succ fuel ih =>
    intro i tau1 h
    simp only [scanLoop] at h ⊢
    by_cases hi : i < maxTau
    · rw [if_pos hi] at h ⊢
      by_cases hc1 : f i < t1
      · rw [if_pos hc1] at h
        have : i = tau1 := by simpa using h
        subst this
        rw [if_pos (lt_of_lt_of_le hc1 hT)]
        exact ⟨i, le_refl _, rfl⟩
      · rw [if_neg hc1] at h
        by_cases hc2 : f i < t2
        · rw [if_pos hc2]
          have := scanLoop_some_ge f maxTau t1 fuel (i + 1) tau1 h
          exact ⟨i, by omega, rfl⟩
        · rw [if_neg hc2]
          exact ih (i + 1) tau1 h
    · rw [if_neg hi] at h
      exact absurd h (by simp)

/-- Every lag at which the descend loop evaluates the metric is below the
loop bound. -/
theorem descendEvalLoop_lt :
    ∀ fuel j v tau, tau ∈ descendEvalLoop f maxTau fuel j v → tau < maxTau := by
  intro fuel
  induction fuel with
  | zero => intro j v tau h; simp [descendEvalLoop] at h
  | succ fuel ih =>
    intro j v tau h
    simp only [descendEvalLoop] at h
    by_cases hj : j < maxTau
    · rw [if_pos hj] at h
      rcases List.mem_cons.mp h with h | h
      · omega
      · by_cases hc : f j < v
        · rw [if_pos hc] at h
          exact ih (j + 1) (f j) tau h
        · rw [if_neg hc] at h
          simp at h
    · rw [if_neg hj] at h
      simp at h

/-- Every lag at which the scan loop (or the descend loop it hands over to)
evaluates the metric is below the loop bound. -/
theorem scanEvalLoop_lt (t : ℚ) :
    ∀ fuel i tau, tau ∈ scanEvalLoop f maxTau t fuel i → tau < maxTau := by
  intro fuel
  induction fuel with
  | zero => intro i tau h; simp [scanEvalLoop] at h
  | succ fuel ih =>
    intro i tau h
    simp only [scanEvalLoop] at h
    by_cases hi : i < maxTau
    · rw [if_pos hi] at h
      rcases List.mem_cons.mp h with h | h
      · omega
      · by_cases hc : f i < t
        · rw [if_pos hc] at h
          exact descendEvalLoop_lt f maxTau (maxTau - (i + 1)) (i + 1) (f i) tau h
        · rw [if_neg hc] at h
          exact ih (i + 1) tau h
    · rw [if_neg hi] at h
      simp at h

end GenericLoopLemmas

section YinEquivalence

/-- The running sum of the Yin loops advances by computeDiff at the next
lag. -/
theorem yin_cumDiff_succ (samples : List ℚ) (k : ℕ) :
    Yin.cumDiff samples (k + 1) = Yin.cumDiff samples k + Yin.computeDiff samples (k + 1) :=
  rfl

/-- Entering Yin.findAbsoluteThreshold at bestTau = j + 1 with the running
diff, sum and cmnd of lag j, the loop behaves exactly like the generic
descend loop over the per-lag metric cmndAt, and interpolates its result with
the running state of that lag. -/
theorem yin_findAbsoluteThreshold_eq (samples : List ℚ) (bufferSize : ℕ) :
    ∀ fuel j,
      Yin.findAbsoluteThreshold samples bufferSize fuel (j + 1) (Yin.computeDiff samples j)
          (Yin.cumDiff samples j) (Yin.cmndAt samples j) =
        Yin.applyParabolicInterpolation samples
          (descendLoop (Yin.cmndAt samples) bufferSize fuel (j + 1) (Yin.cmndAt samples j))
          bufferSize
          (Yin.computeDiff samples
            (descendLoop (Yin.cmndAt samples) bufferSize fuel (j + 1) (Yin.cmndAt samples j)))
          (Yin.cumDiff samples
            (descendLoop (Yin.cmndAt samples) bufferSize fuel (j + 1) (Yin.cmndAt samples j)))
          (Yin.cmndAt samples
            (descendLoop (Yin.cmndAt samples) bufferSize fuel (j + 1) (Yin.cmndAt samples j))) := by
  intro fuel
  induction fuel with
  | zero =>
    intro j
    simp only [Yin.findAbsoluteThreshold, descendLoop, Nat.add_sub_cancel]
  | succ fuel ih =>
    intro j
    simp only [Yin.findAbsoluteThreshold, descendLoop]
    by_cases hj : j + 1 < bufferSize
    · rw [if_pos hj, if_pos hj]
      have hsum : Yin.cumDiff samples j + Yin.computeDiff samples (j + 1) =
          Yin.cumDiff samples (j + 1) := rfl
      rw [hsum]
      have hcm : Yin.computeDiff samples (j + 1) * ((j + 1 : ℕ) : ℚ) /
          Yin.cumDiff samples (j + 1) = Yin.cmndAt samples (j + 1) := rfl
      rw [hcm]
      by_cases hlt : Yin.cmndAt samples (j + 1) < Yin.cmndAt samples j
      · rw [if_pos hlt, if_pos hlt]
        exact ih (j + 1)
      · rw [if_neg hlt, if_neg hlt, Nat.add_sub_cancel]
    · rw [if_neg hj, if_neg hj, Nat.add_sub_cancel]

/-- Entering the Yin scanning loop at i0 + 1 with the running sum of lag i0,
the loop compares exactly the per-lag values cmndAt against the threshold,
and on the first crossing produces Yin.searchResult of the crossing lag. -/
theorem yin_findBestTauLoop_eq (samples : List ℚ) (bufferSize : ℕ) (t : ℚ) :
    ∀ fuel i0,
      Yin.findBestTauLoop samples bufferSize t fuel (i0 + 1) (Yin.cumDiff samples i0) =
        match scanLoop (Yin.cmndAt samples) bufferSize t fuel (i0 + 1) with
        | none => 0
        | some tau0 => Yin.searchResult samples bufferSize tau0 := by
  intro fuel
  induction fuel with
  | zero => intro i0; rfl
  | succ fuel ih =>
    intro i0
    simp only [Yin.findBestTauLoop, scanLoop]
    by_cases hi : i0 + 1 < bufferSize
    · rw [if_pos hi, if_pos hi]
      have hsum : Yin.cumDiff samples i0 + Yin.computeDiff samples (i0 + 1) =
          Yin.cumDiff samples (i0 + 1) := rfl
      rw [hsum]
      have hcm : Yin.computeDiff samples (i0 + 1) * ((i0 + 1 : ℕ) : ℚ) /
          Yin.cumDiff samples (i0 + 1) = Yin.cmndAt samples (i0 + 1) := rfl
      rw [hcm]
      by_cases hlt : Yin.cmndAt samples (i0 + 1) < t
      · rw [if_pos hlt, if_pos hlt]
        exact yin_findAbsoluteThreshold_eq samples bufferSize
          (bufferSize - (i0 + 1 + 1)) (i0 + 1)
      · rw [if_neg hlt, if_neg hlt]
        exact ih (i0 + 1)
    · rw [if_neg hi, if_neg hi]

/-- Yin.findBestTau scans the per-lag values cmndAt from lag 1: it returns 0
when no lag in [1, bufferSize) has cmndAt below the threshold, and otherwise
the descend-and-interpolate result at the first such lag. -/
theorem yin_findBestTau_eq (samples : List ℚ) (bufferSize : ℕ) (t : ℚ) :
    Yin.findBestTau samples bufferSize t =
      match searchFirstCrossing (Yin.cmndAt samples) 1 bufferSize t with
      | none => 0
      | some tau0 => Yin.searchResult samples bufferSize tau0 := by
  have h0 : (0 : ℚ) = Yin.cumDiff samples 0 := rfl
  unfold Yin.findBestTau searchFirstCrossing
  rw [h0]
  exact yin_findBestTauLoop_eq samples bufferSize t (bufferSize - 1) 0

end YinEquivalence

section McLeodLemmas

/-- Membership in McLeod.findPeaks is exactly the strict-local-maximum-above-
threshold condition of the source loop. -/
theorem mcLeod_findPeaks_mem_iff (nsdf : List ℚ) (t : ℚ) (i : ℕ) :
    i ∈ McLeod.findPeaks nsdf t ↔
      1 ≤ i ∧ i + 1 < nsdf.length ∧ t < nsdf.getD i 0 ∧
        nsdf.getD (i - 1) 0 < nsdf.getD i 0 ∧ nsdf.getD (i + 1) 0 < nsdf.getD i 0 := by
  simp only [McLeod.findPeaks, List.mem_filter, List.mem_range, decide_eq_true_eq]
  constructor
  · exact fun h => h.2
  · exact fun h => ⟨by omega, h⟩

/-- The peak list is strictly increasing (peaks are pushed in index order). -/
theorem mcLeod_findPeaks_pairwise (nsdf : List ℚ) (t : ℚ) :
    List.Pairwise (· < ·) (McLeod.findPeaks nsdf t) :=
  List.Pairwise.sublist (List.filter_sublist _) (List.sorted_lt_range _)

/-- Over a strictly increasing candidate list, the maximising loop of
McLeod.detect returns a candidate whose NSDF value is maximal, and the
first-encountered (hence smallest) one among equal maxima. -/
theorem mcLeod_bestPeak_spec (nsdf : List ℚ) :
    ∀ (rest : List ℕ) (cur : ℕ), List.Pairwise (· < ·) (cur :: rest) →
      McLeod.bestPeak nsdf cur rest ∈ cur :: rest ∧
        (∀ q ∈ cur :: rest, nsdf.getD q 0 ≤ nsdf.getD (McLeod.bestPeak nsdf cur rest) 0) ∧
        (∀ q ∈ cur :: rest, nsdf.getD q 0 = nsdf.getD (McLeod.bestPeak nsdf cur rest) 0 →
          McLeod.bestPeak nsdf cur rest ≤ q) := by
  intro rest
  induction rest with
  | nil =>
    intro cur _
    refine ⟨List.mem_cons_self _ _, ?_, ?_⟩
    · intro q hq
      rcases List.mem_cons.mp hq with rfl | hq
      · exact le_refl _
      · simp at hq
    · intro q hq _
      rcases List.mem_cons.mp hq with rfl | hq
      · exact le_refl _
      · simp at hq
  | cons p rest ih =>
    intro cur hp
    have hcurp : cur < p := (List.pairwise_cons.mp hp).1 p (List.mem_cons_self _ _)
    simp only [McLeod.bestPeak]
    by_cases hc : nsdf.getD cur 0 < nsdf.getD p 0
    · rw [if_pos hc]
      have hp1 : List.Pairwise (· < ·) (p :: rest) := (List.pairwise_cons.mp hp).2
      obtain ⟨h1, h2, h3⟩ := ih p hp1
      have hcr : nsdf.getD cur 0 < nsdf.getD (McLeod.bestPeak nsdf p rest) 0 :=
        lt_of_lt_of_le hc (h2 p (List.mem_cons_self _ _))
      refine ⟨List.mem_cons_of_mem _ h1, ?_, ?_⟩
      · intro q hq
        rcases List.mem_cons.mp hq with rfl | hq
        · exact le_of_lt hcr
        · exact h2 q hq
      · intro q hq heq
        rcases List.mem_cons.mp hq with rfl | hq
        · exact absurd heq (ne_of_lt hcr)
        · exact h3 q hq heq
    · rw [if_neg hc]
      have hp1 : List.Pairwise (· < ·) (cur :: rest) := by
        obtain ⟨ha, hb⟩ := List.pairwise_cons.mp hp
        exact List.pairwise_cons.mpr ⟨fun a haa => ha a (List.mem_cons_of_mem _ haa),
          (List.pairwise_cons.mp hb).2⟩
      obtain ⟨h1, h2, h3⟩ := ih cur hp1
      have hcbest : nsdf.getD cur 0 ≤ nsdf.getD (McLeod.bestPeak nsdf cur rest) 0 :=
        h2 cur (List.mem_cons_self _ _)
      have hpbest : nsdf.getD p 0 ≤ nsdf.getD (McLeod.bestPeak nsdf cur rest) 0 :=
        le_trans (le_of_not_lt hc) hcbest
      refine ⟨?_, ?_, ?_⟩
      · rcases List.mem_cons.mp h1 with h | h
        · rw [h]
          exact List.mem_cons_self _ _
        · exact List.mem_cons_of_mem _ (List.mem_cons_of_mem _ h)
      · intro q hq
        rcases List.mem_cons.mp hq with rfl | hq
        · exact hcbest
        rcases List.mem_cons.mp hq with rfl | hq
        · exact hpbest
        · exact h2 q (List.mem_cons_of_mem _ hq)
      · intro q hq heq
        rcases List.mem_cons.mp hq with rfl | hq
        · exact h3 q (List.mem_cons_self _ _) heq
        rcases List.mem_cons.mp hq with rfl | hq
        · have hcureq : nsdf.getD cur 0 = nsdf.getD (McLeod.bestPeak nsdf cur rest) 0 :=
            le_antisymm hcbest (heq ▸ le_of_not_lt hc)
          have := h3 cur (List.mem_cons_self _ _) hcureq
          omega
        · exact h3 q (List.mem_cons_of_mem _ hq) heq

end McLeodLemmas

section AsdfPrevLemmas

/-- The running argmin of the older Asdf.findBestLag stays below maxLag once
it is. -/
theorem asdfPrev_findBestLagLoop_lt (asdf : List ℚ) (maxLag : ℕ) :
    ∀ fuel lag bestLag value, bestLag < maxLag →
      AsdfPrev.findBestLagLoop asdf maxLag fuel lag bestLag value < maxLag := by
  intro fuel
  induction fuel with
  | zero => intro lag bestLag value h; exact h
  | succ fuel ih =>
    intro lag bestLag value h
    simp only [AsdfPrev.findBestLagLoop]
    by_cases hl : lag < maxLag
    · rw [if_pos hl]
      split
      · exact ih (lag + 1) lag _ hl
      · exact ih (lag + 1) bestLag value h
    · rw [if_neg hl]
      exact h

/-- The running argmin of the older Asdf.findBestLag never drops below a
bound that both the counter and the current best respect. -/
theorem asdfPrev_findBestLagLoop_ge (asdf : List ℚ) (maxLag minLag : ℕ) :
    ∀ fuel lag bestLag value, minLag ≤ bestLag → minLag ≤ lag →
      minLag ≤ AsdfPrev.findBestLagLoop asdf maxLag fuel lag bestLag value := by
  intro fuel
  induction fuel with
  | zero => intro lag bestLag value h _; exact h
  | succ fuel ih =>
    intro lag bestLag value h hl2
    simp only [AsdfPrev.findBestLagLoop]
    by_cases hl : lag < maxLag
    · rw [if_pos hl]
      split
      · exact ih (lag + 1) lag _ hl2 (by omega)
      · exact ih (lag + 1) bestLag value h (by omega)
    · rw [if_neg hl]
      exact h

end AsdfPrevLemmas

/-- C1: for the AMDF, ASDF and YIN detectors, scanning the lag upward from
the start of the range, at the first lag tau0 whose metric value is strictly
below the threshold the search switches to a descend phase that keeps
incrementing the lag while the metric strictly decreases, and the lag it
selects is the last one before the metric fails to decrease or the bound is
reached (descendChar) — the first local minimum after the crossing, not the
global minimum.  ASDF returns that integer lag unchanged; AMDF and YIN hand
exactly that lag to their parabolic-interpolation refinement, as the source
does. -/
theorem C1_threshold_descend_first_local_min :
    (∀ (samples : List ℚ) (minTau maxTau tau0 : ℕ) (t : ℚ),
        minTau ≤ tau0 → tau0 < maxTau → Amdf.computeAmdf samples tau0 < t →
        (∀ k, minTau ≤ k → k < tau0 → ¬ Amdf.computeAmdf samples k < t) →
        ∃ r : ℕ, descendChar (Amdf.computeAmdf samples) tau0 maxTau r ∧
          Amdf.findBestTau samples minTau maxTau t =
            PitchDetector.applyParabolicInterpolation samples r) ∧
    (∀ (samples : List ℚ) (minTau maxTau tau0 : ℕ) (t : ℚ),
        minTau ≤ tau0 → tau0 < maxTau → Asdf.computeAsdf samples tau0 < t →
        (∀ k, minTau ≤ k → k < tau0 → ¬ Asdf.computeAsdf samples k < t) →
        ∃ r : ℕ, descendChar (Asdf.computeAsdf samples) tau0 maxTau r ∧
          Asdf.findBestTau samples minTau maxTau t = r) ∧
    (∀ (samples : List ℚ) (bufferSize tau0 : ℕ) (t : ℚ),
        1 ≤ tau0 → tau0 < bufferSize → Yin.cmndAt samples tau0 < t →
        (∀ k, 1 ≤ k → k < tau0 → ¬ Yin.cmndAt samples k < t) →
        ∃ r : ℕ, descendChar (Yin.cmndAt samples) tau0 bufferSize r ∧
          Yin.findBestTau samples bufferSize t =
            Yin.applyParabolicInterpolation samples r bufferSize
              (Yin.computeDiff samples r) (Yin.cumDiff samples r)
              (Yin.cmndAt samples r)) := by
  refine ⟨?_, ?_, ?_⟩
  · intro samples minTau maxTau tau0 t h1 h2 h3 h4
    have hcross : Amdf.firstCross samples minTau maxTau t = some tau0 := by
      unfold Amdf.firstCross
      exact (scanLoop_eq_some_iff _ _ _ _ _ _ rfl).mpr ⟨h1, h2, h3, h4⟩
    refine ⟨Amdf.findAbsoluteThreshold samples tau0 maxTau (Amdf.computeAmdf samples tau0),
      ?_, ?_⟩
    · unfold Amdf.findAbsoluteThreshold
      exact descendLoop_spec (Amdf.computeAmdf samples) maxTau _ tau0 (by omega) rfl
    · unfold Amdf.findBestTau
      rw [hcross]
  · intro samples minTau maxTau tau0 t h1 h2 h3 h4
    have hcross : Asdf.firstCross samples minTau maxTau t = some tau0 := by
      unfold Asdf.firstCross
      exact (scanLoop_eq_some_iff _ _ _ _ _ _ rfl).mpr ⟨h1, h2, h3, h4⟩
    refine ⟨Asdf.findAbsoluteThreshold samples tau0 maxTau (Asdf.computeAsdf samples tau0),
      ?_, ?_⟩
    · unfold Asdf.findAbsoluteThreshold
      exact descendLoop_spec (Asdf.computeAsdf samples) maxTau _ tau0 (by omega) rfl
    · unfold Asdf.findBestTau
      rw [hcross]
  · intro samples bufferSize tau0 t h1 h2 h3 h4
    have hcross : searchFirstCrossing (Yin.cmndAt samples) 1 bufferSize t = some tau0 := by
      unfold searchFirstCrossing
      exact (scanLoop_eq_some_iff _ _ _ _ _ _ rfl).mpr ⟨h1, h2, h3, h4⟩
    refine ⟨descendLoop (Yin.cmndAt samples) bufferSize (bufferSize - (tau0 + 1)) (tau0 + 1)
      (Yin.cmndAt samples tau0), ?_, ?_⟩
    · exact descendLoop_spec (Yin.cmndAt samples) bufferSize _ tau0 (by omega) rfl
    · rw [yin_findBestTau_eq, hcross]
      rfl

/-- Witness for C1: on the buffer [0, 0, 9/40, 0] with range [1, 3) and
threshold 1/5, the AMDF scan crosses at lag 1 and descends to lag 2. -/
theorem C1_witness :
    ∃ r : ℕ, descendChar (Amdf.computeAmdf [0, 0, 9/40, 0]) 1 3 r ∧
      Amdf.findBestTau [0, 0, 9/40, 0] 1 3 (1/5) =
        PitchDetector.applyParabolicInterpolation [0, 0, 9/40, 0] r :=
  C1_threshold_descend_first_local_min.1 [0, 0, 9/40, 0] 1 3 1 (1/5)
    (le_refl 1) (by omega)
    (by norm_num [Amdf.computeAmdf, sumRange, abs_of_nonneg, abs_of_nonpos])
    (fun k hk1 hk2 => absurd hk2 (by omega))

/-- C2 counterexample: at the metric values v = [3, 1, 0] and tau = 1 the
base-class refinement does not return the claimed
tau + (v[tau-1] - v[tau+1]) / (2 * (2 * v[tau] - v[tau+1] - v[tau-1]))
(which is -1/2 here): the source numerator is v[tau-1] - 2*v[tau] + v[tau+1],
and the result is 1/2. -/
theorem C2_counterexample :
    PitchDetector.applyParabolicInterpolation [3, 1, 0] 1 ≠
      some ((1 : ℚ) +
        (([3, 1, 0] : List ℚ).getD 0 0 - ([3, 1, 0] : List ℚ).getD 2 0) /
          (2 * (2 * ([3, 1, 0] : List ℚ).getD 1 0 - ([3, 1, 0] : List ℚ).getD 2 0 -
            ([3, 1, 0] : List ℚ).getD 0 0))) := by
  norm_num [PitchDetector.applyParabolicInterpolation]

/-- C2 (amended): the base-class refinement uses the numerator
v[tau-1] - 2*v[tau] + v[tau+1] — the negative of half the denominator — so
whenever the curvature is nonzero it returns tau - 1/2; the Yin refinement
uses the numerator v[tau+1] - v[tau-1] (the sign opposite to the claim, the
standard vertex offset for a minimum) over the same denominator, computed on
the cmnd values. -/
theorem C2_parabolic_interpolation_amended :
    (∀ (v : List ℚ) (tau : ℕ), 1 ≤ tau → tau + 1 < v.length →
        2 * v.getD tau 0 - v.getD (tau + 1) 0 - v.getD (tau - 1) 0 ≠ 0 →
        PitchDetector.applyParabolicInterpolation v tau = some ((tau : ℚ) - 1 / 2)) ∧
    (∀ (samples : List ℚ) (tau bufferSize : ℕ), 1 ≤ tau → tau + 1 < bufferSize →
        2 * Yin.cmndAt samples tau - Yin.cmndAt samples (tau + 1) -
          Yin.cmndAt samples (tau - 1) ≠ 0 →
        Yin.applyParabolicInterpolation samples tau bufferSize
            (Yin.computeDiff samples tau) (Yin.cumDiff samples tau)
            (Yin.cmndAt samples tau) =
          (tau : ℚ) + (Yin.cmndAt samples (tau + 1) - Yin.cmndAt samples (tau - 1)) /
            (2 * (2 * Yin.cmndAt samples tau - Yin.cmndAt samples (tau + 1) -
              Yin.cmndAt samples (tau - 1)))) := by
  constructor
  · intro v tau h1 h2 hd
    have hd2 : 2 * (2 * v.getD tau 0 - v.getD (tau + 1) 0 - v.getD (tau - 1) 0) ≠ 0 :=
      mul_ne_zero two_ne_zero hd
    simp only [PitchDetector.applyParabolicInterpolation, if_pos (And.intro h1 h2),
      if_neg hd2, Option.some.injEq]
    have hnum : v.getD (tau - 1) 0 - 2 * v.getD tau 0 + v.getD (tau + 1) 0 =
        -(2 * v.getD tau 0 - v.getD (tau + 1) 0 - v.getD (tau - 1) 0) := by ring
    rw [hnum, neg_div]
    have hq : (2 * v.getD tau 0 - v.getD (tau + 1) 0 - v.getD (tau - 1) 0) /
        (2 * (2 * v.getD tau 0 - v.getD (tau + 1) 0 - v.getD (tau - 1) 0)) = 1 / 2 := by
      rw [div_eq_iff hd2]
      ring
    rw [hq]
    ring
  · intro samples tau bufferSize h1 h2 ha
    obtain ⟨m, rfl⟩ : ∃ m, tau = m + 1 := ⟨tau - 1, by omega⟩
    simp only [Nat.add_sub_cancel] at ha ⊢
    have hps : Yin.cumDiff samples (m + 1) - Yin.computeDiff samples (m + 1) =
        Yin.cumDiff samples m := by
      rw [yin_cumDiff_succ]
      ring
    simp only [Yin.applyParabolicInterpolation, if_neg (Nat.succ_ne_zero m),
      if_neg (by omega : ¬ bufferSize ≤ m + 1 + 1), Nat.add_sub_cancel]
    rw [hps]
    show (if 2 * Yin.cmndAt samples (m + 1) - Yin.cmndAt samples (m + 1 + 1) -
        Yin.cmndAt samples m = 0 then ((m + 1 : ℕ) : ℚ)
      else ((m + 1 : ℕ) : ℚ) +
        (Yin.cmndAt samples (m + 1 + 1) - Yin.cmndAt samples m) /
          (2 * (2 * Yin.cmndAt samples (m + 1) - Yin.cmndAt samples (m + 1 + 1) -
            Yin.cmndAt samples m))) = _
    rw [if_neg ha]

/-- Witness for C2 (amended): at the metric values [3, 1, 0] and tau = 1 the
curvature is nonzero and the base-class refinement returns 1 - 1/2. -/
theorem C2_witness :
    PitchDetector.applyParabolicInterpolation [3, 1, 0] 1 = some ((1 : ℚ) - 1 / 2) :=
  C2_parabolic_interpolation_amended.1 [3, 1, 0] 1 (le_refl 1) (by norm_num) (by norm_num)

/-- C3 counterexample: in the part_002 YIN snapshot the quantity compared
against the threshold is the stored cmnd[tau] = (diff(1) + ... + diff(tau)) /
tau, not diff(tau) * tau / (diff(1) + ... + diff(tau)): on the buffer [0, 2]
at tau = 1 the stored value is 4 while the claimed formula gives 1. -/
theorem C3_counterexample :
    (YinPrev.computeCmnd [0, 2]).getD 1 0 ≠
      YinPrev.computeDifference [0, 2] 1 * (1 : ℚ) / YinPrev.cumDiff [0, 2] 1 := by
  norm_num [YinPrev.computeCmnd, YinPrev.cumDiff, YinPrev.computeDifference, sumRange,
    List.range_succ]

/-- C3 (amended): the current YIN (part_003) compares against the threshold
exactly cmndAt(tau) = diff(tau) * tau / (diff(1) + ... + diff(tau)) while
scanning lags upward from 1; the part_002 snapshot instead stores 1 at lag 0
and the cumulative mean (diff(1) + ... + diff(tau)) / tau at every lag
tau >= 1, and compares those values. -/
theorem C3_cmnd_amended :
    (∀ (samples : List ℚ) (bufferSize : ℕ) (t : ℚ),
        Yin.findBestTau samples bufferSize t =
          match searchFirstCrossing (Yin.cmndAt samples) 1 bufferSize t with
          | none => 0
          | some tau0 => Yin.searchResult samples bufferSize tau0) ∧
    (∀ samples : List ℚ, 0 < samples.length →
        (YinPrev.computeCmnd samples).getD 0 0 = 1) ∧
    (∀ (samples : List ℚ) (i : ℕ), 1 ≤ i → i < samples.length →
        (YinPrev.computeCmnd samples).getD i 0 =
          YinPrev.cumDiff samples i / (i : ℚ)) := by
  refine ⟨yin_findBestTau_eq, ?_, ?_⟩
  · intro samples h
    simp only [YinPrev.computeCmnd, List.getD_eq_getElem?_getD, List.getElem?_map]
    rw [List.getElem?_range h]
    simp
  · intro samples i h1 h2
    simp only [YinPrev.computeCmnd, List.getD_eq_getElem?_getD, List.getElem?_map]
    rw [List.getElem?_range h2]
    simp only [Option.map_some', Option.getD_some]
    rw [if_neg (by omega)]

/-- Witness for C3 (amended): on the buffer [0, 2] the part_002 snapshot
stores the cumulative mean at lag 1. -/
theorem C3_witness :
    (YinPrev.computeCmnd [0, 2]).getD 1 0 = YinPrev.cumDiff [0, 2] 1 / (1 : ℚ) :=
  C3_cmnd_amended.2.2 [0, 2] 1 (le_refl 1) (by norm_num)

/-- C4: McLeod lag selection collects exactly the indices i with 1 <= i <
nsdf.length - 1 whose NSDF value strictly exceeds the threshold and both
neighbours; among the collected peaks the selection loop returns one with the
largest NSDF value, keeping the smallest (first-encountered) lag among equal
maxima; and the search fails — detect returns the -1 sentinel — exactly when
no index qualifies. -/
theorem C4_mcleod_peak_selection :
    (∀ (nsdf : List ℚ) (t : ℚ) (i : ℕ),
        i ∈ McLeod.findPeaks nsdf t ↔
          1 ≤ i ∧ i + 1 < nsdf.length ∧ t < nsdf.getD i 0 ∧
            nsdf.getD (i - 1) 0 < nsdf.getD i 0 ∧ nsdf.getD (i + 1) 0 < nsdf.getD i 0) ∧
    (∀ (nsdf : List ℚ) (t : ℚ) (r : ℕ), McLeod.bestTau nsdf t = some r →
        r ∈ McLeod.findPeaks nsdf t ∧
          (∀ q ∈ McLeod.findPeaks nsdf t, nsdf.getD q 0 ≤ nsdf.getD r 0) ∧
          (∀ q ∈ McLeod.findPeaks nsdf t, nsdf.getD q 0 = nsdf.getD r 0 → r ≤ q)) ∧
    (∀ (nsdf : List ℚ) (t : ℚ), McLeod.bestTau nsdf t = none ↔
        McLeod.findPeaks nsdf t = []) ∧
    (∀ (samples : List ℚ) (bufferSize : ℕ) (t rate : ℚ),
        McLeod.findPeaks (McLeod.computeNsdf samples bufferSize) t = [] →
        McLeod.detect samples bufferSize t rate = some (-1)) := by
  refine ⟨mcLeod_findPeaks_mem_iff, ?_, ?_, ?_⟩
  · intro nsdf t r h
    unfold McLeod.bestTau at h
    cases hp : McLeod.findPeaks nsdf t with
    | nil =>
      rw [hp] at h
      exact absurd h (by simp)
    | cons p rest =>
      rw [hp] at h
      have hr : McLeod.bestPeak nsdf p rest = r := by simpa using h
      have hpw : List.Pairwise (· < ·) (p :: rest) := hp ▸ mcLeod_findPeaks_pairwise nsdf t
      obtain ⟨h1, h2, h3⟩ := mcLeod_bestPeak_spec nsdf rest p hpw
      rw [hr] at h1 h2 h3
      exact ⟨h1, h2, h3⟩
  · intro nsdf t
    unfold McLeod.bestTau
    cases hp : McLeod.findPeaks nsdf t with
    | nil => simp
    | cons p rest => simp
  · intro samples bufferSize t rate h
    simp [McLeod.detect, h]

/-- A positive result of Asdf.findBestTau lies in [minTau, maxTau): it can
only arise from a crossing in that range followed by the bounded descend. -/
theorem asdf_findBestTau_range (samples : List ℚ) (minTau maxTau : ℕ) (t : ℚ)
    (h : 0 < Asdf.findBestTau samples minTau maxTau t) :
    minTau ≤ Asdf.findBestTau samples minTau maxTau t ∧
      Asdf.findBestTau samples minTau maxTau t < maxTau := by
  unfold Asdf.findBestTau at h ⊢
  cases hc : Asdf.firstCross samples minTau maxTau t with
  | none =>
    rw [hc] at h
    exact absurd h (lt_irrefl 0)
  | some tau0 =>
    show minTau ≤ Asdf.findAbsoluteThreshold samples tau0 maxTau (Asdf.computeAsdf samples tau0) ∧
      Asdf.findAbsoluteThreshold samples tau0 maxTau (Asdf.computeAsdf samples tau0) < maxTau
    have hc2 : scanLoop (Asdf.computeAsdf samples) maxTau t (maxTau - minTau) minTau =
        some tau0 := hc
    have hiff := (scanLoop_eq_some_iff (Asdf.computeAsdf samples) maxTau t
      (maxTau - minTau) minTau tau0 rfl).mp hc2
    have hchar := descendLoop_spec (Asdf.computeAsdf samples) maxTau
      (maxTau - (tau0 + 1)) tau0 (by omega) rfl
    obtain ⟨ha, hb, _, _⟩ := hchar
    unfold Asdf.findAbsoluteThreshold
    constructor
    · omega
    · exact hb

/-- Witness for C4: on the NSDF values [0, 1, 0, 2, 0] with threshold 1/2 the
selected peak is lag 3 and it dominates both collected peaks. -/
theorem C4_witness :
    3 ∈ McLeod.findPeaks [0, 1, 0, 2, 0] (1/2) ∧
      (∀ q ∈ McLeod.findPeaks [0, 1, 0, 2, 0] (1/2),
        ([0, 1, 0, 2, 0] : List ℚ).getD q 0 ≤ ([0, 1, 0, 2, 0] : List ℚ).getD 3 0) ∧
      (∀ q ∈ McLeod.findPeaks [0, 1, 0, 2, 0] (1/2),
        ([0, 1, 0, 2, 0] : List ℚ).getD q 0 = ([0, 1, 0, 2, 0] : List ℚ).getD 3 0 →
          3 ≤ q) :=
  C4_mcleod_peak_selection.2.1 [0, 1, 0, 2, 0] (1/2) 3
    (by norm_num [McLeod.bestTau, McLeod.findPeaks, McLeod.bestPeak, List.range_succ,
      List.filter])



/-- C5 counterexample: with rate 5, minFrequency 1, maxFrequency 10 and
threshold 1/10 on the buffer [0, 1, 0], minTau is 0 and the AMDF search
crosses the threshold at lag 0 (the scan succeeds), yet detect still returns
the sentinel 0 — so the sentinel is not returned exactly when no lag in the
searched range crosses the threshold. -/
theorem C5_counterexample :
    Amdf.detect [0, 1, 0] 5 1 10 (1/10) = 0 ∧
      Amdf.firstCross [0, 1, 0] ((⌊(5 : ℚ) / 10⌋).toNat) ((⌈(5 : ℚ) / 1⌉).toNat) (1/10) =
        some 0 := by
  constructor
  · norm_num [Amdf.detect, Amdf.findBestTau, Amdf.firstCross, Amdf.findAbsoluteThreshold,
      scanLoop, descendLoop, Amdf.computeAmdf, sumRange,
      PitchDetector.applyParabolicInterpolation, abs_of_nonneg, abs_of_nonpos]
  · norm_num [Amdf.firstCross, scanLoop, Amdf.computeAmdf, sumRange, abs_of_nonneg,
      abs_of_nonpos]

/-- C5 (amended): each detector returns its sentinel (0 for AMDF, ASDF and
YIN; -1 for McLeod) whenever the lag search fails, and a successful search
producing a positive lag yields the positive frequency rate / lag, which
collides with neither sentinel; but the sentinel 0 is also returned when the
search succeeds with a nonpositive (or, for AMDF, NaN) interpolated lag,
which the counterexample shows is reachable when minTau = 0. -/
theorem C5_sentinel_amended :
    (∀ (samples : List ℚ) (rate minF maxF t : ℚ),
        (∀ k, (⌊rate / maxF⌋).toNat ≤ k → k < (⌈rate / minF⌉).toNat →
          ¬ Amdf.computeAmdf samples k < t) →
        Amdf.detect samples rate minF maxF t = 0) ∧
    (∀ (samples : List ℚ) (rate minF maxF t b : ℚ),
        Amdf.findBestTau samples (⌊rate / maxF⌋).toNat (⌈rate / minF⌉).toNat t = some b →
        0 < b → 0 < rate →
        Amdf.detect samples rate minF maxF t = rate / b ∧ 0 < rate / b) ∧
    (∀ (samples : List ℚ) (rate minF maxF t : ℚ),
        (∀ k, (⌊rate / maxF⌋).toNat ≤ k → k < (⌈rate / minF⌉).toNat →
          ¬ Asdf.computeAsdf samples k < t) →
        Asdf.detect samples rate minF maxF t = 0) ∧
    (∀ (samples : List ℚ) (rate minF maxF t : ℚ) (b : ℕ),
        Asdf.findBestTau samples (⌊rate / maxF⌋).toNat (⌈rate / minF⌉).toNat t = b →
        0 < b → 0 < rate →
        Asdf.detect samples rate minF maxF t = rate / (b : ℚ) ∧ 0 < rate / (b : ℚ)) ∧
    (∀ (samples : List ℚ) (bufferSize : ℕ) (t rate : ℚ),
        (∀ k, 1 ≤ k → k < bufferSize → ¬ Yin.cmndAt samples k < t) →
        Yin.detect samples bufferSize t rate = 0) ∧
    (∀ (samples : List ℚ) (bufferSize : ℕ) (t rate : ℚ),
        0 < Yin.findBestTau samples bufferSize t → 0 < rate →
        Yin.detect samples bufferSize t rate =
            rate / Yin.findBestTau samples bufferSize t ∧
          0 < rate / Yin.findBestTau samples bufferSize t) ∧
    (∀ (samples : List ℚ) (bufferSize : ℕ) (t rate : ℚ),
        McLeod.findPeaks (McLeod.computeNsdf samples bufferSize) t = [] →
        McLeod.detect samples bufferSize t rate = some (-1)) ∧
    (∀ (samples : List ℚ) (bufferSize : ℕ) (t rate b : ℚ) (p : ℕ) (rest : List ℕ),
        McLeod.findPeaks (McLeod.computeNsdf samples bufferSize) t = p :: rest →
        PitchDetector.applyParabolicInterpolation (McLeod.computeNsdf samples bufferSize)
          (McLeod.bestPeak (McLeod.computeNsdf samples bufferSize) p rest) = some b →
        0 < b → 0 < rate →
        McLeod.detect samples bufferSize t rate = some (rate / b) ∧
          rate / b ≠ -1) := by
  refine ⟨?_, ?_, ?_, ?_, ?_, ?_, ?_, ?_⟩
  · intro samples rate minF maxF t h
    have hn : Amdf.firstCross samples (⌊rate / maxF⌋).toNat (⌈rate / minF⌉).toNat t =
        none := by
      unfold Amdf.firstCross
      exact (scanLoop_eq_none_iff _ _ _ _ _ rfl).mpr h
    simp [Amdf.detect, Amdf.findBestTau, hn]
  · intro samples rate minF maxF t b hb h0 hr
    refine ⟨?_, div_pos hr h0⟩
    simp [Amdf.detect, hb, h0]
  · intro samples rate minF maxF t h
    have hn : Asdf.firstCross samples (⌊rate / maxF⌋).toNat (⌈rate / minF⌉).toNat t =
        none := by
      unfold Asdf.firstCross
      exact (scanLoop_eq_none_iff _ _ _ _ _ rfl).mpr h
    simp [Asdf.detect, Asdf.findBestTau, hn]
  · intro samples rate minF maxF t b hb h0 hr
    have h0q : (0 : ℚ) < (b : ℚ) := by exact_mod_cast h0
    refine ⟨?_, div_pos hr h0q⟩
    simp [Asdf.detect, hb, h0]
  · intro samples bufferSize t rate h
    have hn : searchFirstCrossing (Yin.cmndAt samples) 1 bufferSize t = none := by
      unfold searchFirstCrossing
      exact (scanLoop_eq_none_iff _ _ _ _ _ rfl).mpr h
    simp [Yin.detect, yin_findBestTau_eq, hn]
  · intro samples bufferSize t rate h0 hr
    refine ⟨?_, div_pos hr h0⟩
    simp [Yin.detect, h0]
  · intro samples bufferSize t rate h
    simp [McLeod.detect, h]
  · intro samples bufferSize t rate b p rest hpeaks hpi h0 hr
    have hpos := div_pos hr h0
    refine ⟨?_, fun hEq => absurd hpos (by rw [hEq]; norm_num)⟩
    simp [McLeod.detect, hpeaks, hpi]

/-- Witness for C5 (amended): on [0, 0, 9/40, 0] with rate 6, frequencies
[2, 6] and threshold 1/5, AMDF finds the interpolated lag 3/2 and returns the
positive frequency 4. -/
theorem C5_witness :
    Amdf.detect [0, 0, 9/40, 0] 6 2 6 (1/5) = 6 / (3/2) ∧ (0 : ℚ) < 6 / (3/2) :=
  C5_sentinel_amended.2.1 [0, 0, 9/40, 0] 6 2 6 (1/5) (3/2)
    (by norm_num [Amdf.findBestTau, Amdf.firstCross, Amdf.findAbsoluteThreshold, scanLoop,
      descendLoop, Amdf.computeAmdf, sumRange, PitchDetector.applyParabolicInterpolation,
      abs_of_nonneg, abs_of_nonpos])
    (by norm_num) (by norm_num)

/-- C6 counterexample: with rate 6, minFrequency 2, maxFrequency 6 and
threshold 1/10 (all section 3 invariants hold) on the two-sample buffer
[0, 1], the configured lag range is [1, 3) and the AMDF search evaluates its
metric at lag 2 = buffer length, where the divisor length - tau is zero. -/
theorem C6_counterexample :
    2 ∈ Amdf.evalLags [0, 1] 6 2 6 (1/10) ∧ ¬ (2 < ([0, 1] : List ℚ).length) := by
  constructor
  · norm_num [Amdf.evalLags, scanEvalLoop, descendEvalLoop, Amdf.computeAmdf, sumRange,
      abs_of_nonneg, abs_of_nonpos]
  · norm_num

/-- C6 (amended): the AMDF and ASDF searches evaluate their metric only at
lags below maxTau = ceil(rate / minFrequency); hence whenever maxTau is at
most the buffer length the divisor length - tau is nonzero at every
evaluated lag — but when maxTau exceeds the buffer length the search can
evaluate the metric at lags up to maxTau - 1, including the buffer length
itself (divisor zero), as the counterexample shows. -/
theorem C6_window_divisor_amended :
    (∀ (samples : List ℚ) (rate minF maxF t : ℚ) (tau : ℕ),
        tau ∈ Amdf.evalLags samples rate minF maxF t →
        tau < (⌈rate / minF⌉).toNat ∧
          ((⌈rate / minF⌉).toNat ≤ samples.length →
            (samples.length : ℚ) - (tau : ℚ) ≠ 0)) ∧
    (∀ (samples : List ℚ) (rate minF maxF t : ℚ) (tau : ℕ),
        tau ∈ Asdf.evalLags samples rate minF maxF t →
        tau < (⌈rate / minF⌉).toNat ∧
          ((⌈rate / minF⌉).toNat ≤ samples.length →
            (samples.length : ℚ) - (tau : ℚ) ≠ 0)) := by
  constructor
  · intro samples rate minF maxF t tau h
    simp only [Amdf.evalLags] at h
    have h1 : tau < (⌈rate / minF⌉).toNat := scanEvalLoop_lt _ _ _ _ _ _ h
    refine ⟨h1, fun h2 => ?_⟩
    have h3 : (tau : ℚ) < (samples.length : ℚ) := by
      exact_mod_cast lt_of_lt_of_le h1 h2
    exact sub_ne_zero.mpr (ne_of_gt h3)
  · intro samples rate minF maxF t tau h
    simp only [Asdf.evalLags] at h
    have h1 : tau < (⌈rate / minF⌉).toNat := scanEvalLoop_lt _ _ _ _ _ _ h
    refine ⟨h1, fun h2 => ?_⟩
    have h3 : (tau : ℚ) < (samples.length : ℚ) := by
      exact_mod_cast lt_of_lt_of_le h1 h2
    exact sub_ne_zero.mpr (ne_of_gt h3)

/-- Witness for C6 (amended): lag 1 is evaluated by the search of the
counterexample configuration and is below maxTau = 3. -/
theorem C6_witness :
    (1 : ℕ) < (⌈(6 : ℚ) / 2⌉).toNat ∧
      ((⌈(6 : ℚ) / 2⌉).toNat ≤ ([0, 1] : List ℚ).length →
        ((([0, 1] : List ℚ).length : ℚ)) - ((1 : ℕ) : ℚ) ≠ 0) :=
  C6_window_divisor_amended.1 [0, 1] 6 2 6 (1/10) 1
    (by norm_num [Amdf.evalLags, scanEvalLoop, descendEvalLoop, Amdf.computeAmdf, sumRange,
      abs_of_nonneg, abs_of_nonpos])

/-- C7: the two early-return boundary cases hold in both implementations, and
the Yin implementation also guards zero curvature; but the base-class
implementation has no zero-curvature guard: at the collinear metric values
[0, 1, 2] with tau = 1 its denominator and numerator are both zero and it
returns NaN (0/0) instead of the unrefined lag 1 the spec requires. -/
theorem C7_parabolic_boundary_cases :
    (∀ (v : List ℚ) (tau : ℕ), tau = 0 ∨ v.length ≤ tau + 1 →
        PitchDetector.applyParabolicInterpolation v tau = some (tau : ℚ)) ∧
    (∀ (samples : List ℚ) (tau bufferSize : ℕ) (diff sum cmnd : ℚ),
        tau = 0 ∨ bufferSize ≤ tau + 1 →
        Yin.applyParabolicInterpolation samples tau bufferSize diff sum cmnd =
          (tau : ℚ)) ∧
    (∀ (samples : List ℚ) (tau bufferSize : ℕ) (diff sum cmnd : ℚ),
        2 * cmnd -
            Yin.computeDiff samples (tau + 1) * ((tau + 1 : ℕ) : ℚ) /
              (sum + Yin.computeDiff samples (tau + 1)) -
            Yin.computeDiff samples (tau - 1) * ((tau - 1 : ℕ) : ℚ) / (sum - diff) = 0 →
        Yin.applyParabolicInterpolation samples tau bufferSize diff sum cmnd =
          (tau : ℚ)) ∧
    PitchDetector.applyParabolicInterpolation [0, 1, 2] 1 = none := by
  refine ⟨?_, ?_, ?_, ?_⟩
  · intro v tau h
    unfold PitchDetector.applyParabolicInterpolation
    rw [if_neg (by
      intro hcon
      rcases h with h | h <;> omega)]
  · intro samples tau bufferSize diff sum cmnd h
    unfold Yin.applyParabolicInterpolation
    rcases h with h | h
    · rw [if_pos h]
    · by_cases h0 : tau = 0
      · rw [if_pos h0]
      · rw [if_neg h0, if_pos h]
  · intro samples tau bufferSize diff sum cmnd h
    by_cases h0 : tau = 0
    · unfold Yin.applyParabolicInterpolation
      rw [if_pos h0]
    · by_cases hB : bufferSize ≤ tau + 1
      · unfold Yin.applyParabolicInterpolation
        rw [if_neg h0, if_pos hB]
      · simp only [Yin.applyParabolicInterpolation, if_neg h0, if_neg hB]
        rw [if_pos h]
  · norm_num [PitchDetector.applyParabolicInterpolation]

/-- Witness for C7: a chosen lag at position 0 is returned unrefined. -/
theorem C7_witness :
    PitchDetector.applyParabolicInterpolation [5, 6] 0 = some 0 := by
  simpa using C7_parabolic_boundary_cases.1 [5, 6] 0 (Or.inl rfl)

/-- C8: configure overwrites exactly the supplied (non-nil) option fields and
keeps every other field at its prior value; in particular configuring only
the threshold changes only the threshold, for both the AMDF options
(minFrequency, maxFrequency, threshold) and the YIN options (bufferSize,
threshold). -/
theorem C8_configure_merge :
    (∀ (o : AmdfOptions) (t : ℚ),
        Amdf.configure o ⟨none, none, some t⟩ = { o with threshold := t }) ∧
    (∀ (o : AmdfOptions) (p : AmdfPatch),
        (Amdf.configure o p).minFrequency = p.minFrequency.getD o.minFrequency ∧
        (Amdf.configure o p).maxFrequency = p.maxFrequency.getD o.maxFrequency ∧
        (Amdf.configure o p).threshold = p.threshold.getD o.threshold) ∧
    (∀ (o : YinOptions) (t : ℚ),
        Yin.configure o ⟨none, some t⟩ = { o with threshold := t }) ∧
    (∀ (o : YinOptions) (p : YinPatch),
        (Yin.configure o p).bufferSize = p.bufferSize.getD o.bufferSize ∧
        (Yin.configure o p).threshold = p.threshold.getD o.threshold) := by
  refine ⟨?_, ?_, ?_, ?_⟩
  · intro o t
    rfl
  · intro o p
    rcases p with ⟨mf, xf, th⟩
    cases mf <;> cases xf <;> cases th <;> exact ⟨rfl, rfl, rfl⟩
  · intro o t
    rfl
  · intro o p
    rcases p with ⟨bs, th⟩
    cases bs <;> cases th <;> exact ⟨rfl, rfl⟩

/-- C9 counterexample: on [0, 0, 9/40, 0] with lag range [1, 3), the first
lag whose AMDF value drops below the larger threshold 1/5 is 1, while for
the smaller threshold 1/10 it is 2 — the first qualifying lag of the larger
threshold is strictly smaller, not greater or equal as claimed. -/
theorem C9_counterexample :
    (1/10 : ℚ) ≤ 1/5 ∧
      Amdf.firstCross [0, 0, 9/40, 0] 1 3 (1/5) = some 1 ∧
      Amdf.firstCross [0, 0, 9/40, 0] 1 3 (1/10) = some 2 ∧ ¬ (2 ≤ 1) := by
  refine ⟨by norm_num, ?_, ?_, by omega⟩
  · norm_num [Amdf.firstCross, scanLoop, Amdf.computeAmdf, sumRange, abs_of_nonneg,
      abs_of_nonpos]
  · norm_num [Amdf.firstCross, scanLoop, Amdf.computeAmdf, sumRange, abs_of_nonneg,
      abs_of_nonpos]

/-- C9 (amended): for AMDF, ASDF and YIN, raising the threshold never
increases the earliest qualifying lag: if the metric first drops below t1 at
tau1 and t1 <= t2, then it first drops below t2 at some tau2 <= tau1 (the
looser threshold triggers no later). -/
theorem C9_threshold_monotonicity_amended :
    (∀ (samples : List ℚ) (minTau maxTau tau1 : ℕ) (t1 t2 : ℚ), t1 ≤ t2 →
        Amdf.firstCross samples minTau maxTau t1 = some tau1 →
        ∃ tau2, tau2 ≤ tau1 ∧ Amdf.firstCross samples minTau maxTau t2 = some tau2) ∧
    (∀ (samples : List ℚ) (minTau maxTau tau1 : ℕ) (t1 t2 : ℚ), t1 ≤ t2 →
        Asdf.firstCross samples minTau maxTau t1 = some tau1 →
        ∃ tau2, tau2 ≤ tau1 ∧ Asdf.firstCross samples minTau maxTau t2 = some tau2) ∧
    (∀ (samples : List ℚ) (bufferSize tau1 : ℕ) (t1 t2 : ℚ), t1 ≤ t2 →
        searchFirstCrossing (Yin.cmndAt samples) 1 bufferSize t1 = some tau1 →
        ∃ tau2, tau2 ≤ tau1 ∧
          searchFirstCrossing (Yin.cmndAt samples) 1 bufferSize t2 = some tau2) := by
  refine ⟨?_, ?_, ?_⟩
  · intro samples minTau maxTau tau1 t1 t2 hT h
    unfold Amdf.firstCross at h ⊢
    exact scanLoop_mono _ _ _ _ hT _ _ _ h
  · intro samples minTau maxTau tau1 t1 t2 hT h
    unfold Asdf.firstCross at h ⊢
    exact scanLoop_mono _ _ _ _ hT _ _ _ h
  · intro samples bufferSize tau1 t1 t2 hT h
    unfold searchFirstCrossing at h ⊢
    exact scanLoop_mono _ _ _ _ hT _ _ _ h

/-- Witness for C9 (amended): instantiated on the counterexample buffer, the
looser threshold 1/5 crosses at some lag at most 2. -/
theorem C9_witness :
    ∃ tau2, tau2 ≤ 2 ∧ Amdf.firstCross [0, 0, 9/40, 0] 1 3 (1/5) = some tau2 :=
  C9_threshold_monotonicity_amended.1 [0, 0, 9/40, 0] 1 3 2 (1/10) (1/5) (by norm_num)
    (by norm_num [Amdf.firstCross, scanLoop, Amdf.computeAmdf, sumRange, abs_of_nonneg,
      abs_of_nonpos])

/-- C10: whenever Asdf.detect returns a non-sentinel (nonzero) value, that
value is rate divided by an integer lag in [minTau, maxTau) — the lag-search
result converted directly, with no parabolic-interpolation step (Asdf does
not call the interpolation helper); the older tau.ts snapshot likewise
converts an integer lag from its floor-bounded range directly. -/
theorem C10_asdf_integer_lag :
    (∀ (samples : List ℚ) (rate minF maxF t : ℚ),
        Asdf.detect samples rate minF maxF t ≠ 0 →
        ∃ r : ℕ, (⌊rate / maxF⌋).toNat ≤ r ∧ r < (⌈rate / minF⌉).toNat ∧
          Asdf.detect samples rate minF maxF t = rate / (r : ℚ)) ∧
    (∀ (samples : List ℚ) (rate minF maxF : ℚ),
        (⌊rate / maxF⌋).toNat < (⌊rate / minF⌋).toNat →
        ∃ r : ℕ, (⌊rate / maxF⌋).toNat ≤ r ∧ r < (⌊rate / minF⌋).toNat ∧
          AsdfPrev.detect samples rate minF maxF = rate / (r : ℚ)) := by
  constructor
  · intro samples rate minF maxF t h
    by_cases hb : 0 < Asdf.findBestTau samples (⌊rate / maxF⌋).toNat
        (⌈rate / minF⌉).toNat t
    · obtain ⟨h1, h2⟩ := asdf_findBestTau_range samples _ _ t hb
      refine ⟨Asdf.findBestTau samples (⌊rate / maxF⌋).toNat (⌈rate / minF⌉).toNat t,
        h1, h2, ?_⟩
      simp [Asdf.detect, hb]
    · exact absurd (by simp [Asdf.detect, hb]) h
  · intro samples rate minF maxF h
    refine ⟨AsdfPrev.findBestLag
        (AsdfPrev.computeAsdf samples ((⌊rate / minF⌋).toNat))
        ((⌊rate / maxF⌋).toNat) ((⌊rate / minF⌋).toNat), ?_, ?_, rfl⟩
    · exact asdfPrev_findBestLagLoop_ge _ _ _ _ _ _ _ (le_refl _) (le_refl _)
    · exact asdfPrev_findBestLagLoop_lt _ _ _ _ _ _ h

/-- Witness for C10: on [0, 0, 9/40, 0] with rate 6, frequencies [2, 6] and
threshold 1/5, ASDF succeeds and returns 6 divided by an integer lag in
[1, 3). -/
theorem C10_witness :
    ∃ r : ℕ, (⌊(6 : ℚ) / 6⌋).toNat ≤ r ∧ r < (⌈(6 : ℚ) / 2⌉).toNat ∧
      Asdf.detect [0, 0, 9/40, 0] 6 2 6 (1/5) = 6 / (r : ℚ) :=
  C10_asdf_integer_lag.1 [0, 0, 9/40, 0] 6 2 6 (1/5)
    (by norm_num [Asdf.detect, Asdf.findBestTau, Asdf.firstCross,
      Asdf.findAbsoluteThreshold, scanLoop, descendLoop, Asdf.computeAsdf, sumRange])
